import Mathlib

/-!
Shallow embedding of the enhanced-terminal-mcp job-execution core.

Text (commands, patterns, output) is modelled as `List Char`, one list
element per byte/character; Rust's byte-based `len()`/slicing maps to
`List.length`/`List.take`/`List.drop`.  The job registry's `HashMap` is
modelled as an association list with unique keys; in-place mutation via
`get_mut` becomes `modifyJob`.  Wall-clock instants are abstract `Nat`
values supplied by the caller (`now`), elapsed times are `Nat`
nanoseconds.  OS effects (signal delivery, PTY allocation) are modelled
by explicit parameters or effect flags, as noted at each definition.
-/

namespace EnhancedTerminal

abbrev Str := List Char

/-- Model of Rust `str::to_lowercase` (character-wise, faithful on the
ASCII patterns and commands involved here). -/
def toLowerStr (s : Str) : Str := s.map Char.toLower

/-- Model of Rust `str::contains(pat)`: substring containment. -/
def containsSub (hay pat : Str) : Bool := decide (pat <:+: hay)

/-- Model of Rust `str::trim` (both ends, whitespace). -/
def trimStr (s : Str) : Str :=
  ((s.dropWhile Char.isWhitespace).reverse.dropWhile Char.isWhitespace).reverse

/-- From src/tools/denylist.rs: `DEFAULT_DENYLIST`. -/
def DEFAULT_DENYLIST : List Str := [
  "rm -rf /".data,
  "rm -rf /*".data,
  "rm -rf ~".data,
  "rm -rf *".data,
  "rm -fr /".data,
  "rm --no-preserve-root".data,
  "> /dev/sda".data,
  "> /dev/hda".data,
  "dd if=/dev/zero".data,
  "dd if=/dev/random".data,
  "mkfs".data,
  "mkfs.ext".data,
  "format c:".data,
  "shutdown".data,
  "reboot".data,
  "halt".data,
  "poweroff".data,
  "init 0".data,
  "init 6".data,
  "systemctl poweroff".data,
  "systemctl reboot".data,
  "systemctl halt".data,
  ":()\x7b:|:&\x7d;:".data,
  ":()\x7b :|:& \x7d;:".data,
  "fork while fork".data,
  "chmod 777 /".data,
  "chmod -R 777 /".data,
  "chown -R root".data,
  "chown root /".data,
  "apt-get remove --purge".data,
  "apt remove --purge".data,
  "yum remove".data,
  "dnf remove".data,
  "pacman -R".data,
  "brew uninstall --force".data,
  "modprobe -r".data,
  "rmmod".data,
  "insmod".data,
  "tcpdump -w /dev/null".data,
  "wget http".data,
  "curl http".data,
  "crontab -r".data,
  "mv /etc".data,
  "mv /usr".data,
  "mv /var".data,
  "mv /bin".data,
  "mv /sbin".data,
  "mv /lib".data]

/-- From src/tools/denylist.rs: `is_denied`. -/
def is_denied (command : Str) (custom_patterns : List Str) : Bool :=
  let command_lower := toLowerStr command
  DEFAULT_DENYLIST.any (fun pattern => containsSub command_lower (toLowerStr pattern))
  || custom_patterns.any (fun pattern =>
       !pattern.isEmpty && containsSub command_lower (toLowerStr pattern))

/-- From src/tools/denylist.rs: `find_matched_pattern`. -/
def find_matched_pattern (command : Str) (custom_patterns : List Str) : Option Str :=
  let command_lower := toLowerStr command
  match DEFAULT_DENYLIST.find? (fun pattern =>
      containsSub command_lower (toLowerStr pattern)) with
  | some pattern => some pattern
  | none => custom_patterns.find? (fun pattern =>
      !pattern.isEmpty && containsSub command_lower (toLowerStr pattern))

/-- From src/tools/job_manager.rs: `JobStatus`. -/
inductive JobStatus where
  | Running
  | Completed
  | Failed
  | TimedOut
  | Canceled
deriving DecidableEq

/-- Model of `matches!(status, JobStatus::Running)`. -/
def isRunning : JobStatus → Bool
  | .Running => true
  | _ => false

/-- From src/tools/job_manager.rs: `JobRecord`.  `started_at`/`finished_at`
are abstract instants; `duration`-related methods are not modelled (wall
clock and floating-point formatting). -/
structure JobRecord where
  job_id : Str
  command : Str
  shell : Str
  cwd : Str
  started_at : Nat
  finished_at : Option Nat
  status : JobStatus
  exit_code : Option Int
  output : Str
  full_output : Str
  truncated : Bool
  pid : Option Nat
  last_read_position : Nat
  tags : List Str
  summary : Str
deriving DecidableEq

/-- The `HashMap<String, JobRecord>` of the `JobManager`, as an
association list with unique keys. -/
abbrev Registry := List (Str × JobRecord)

def lookupJob : Registry → Str → Option JobRecord
  | [], _ => none
  | (k, v) :: rest, id => if k = id then some v else lookupJob rest id

/-- Model of mutation through `jobs.get_mut(job_id)`: apply `f` to the
entry with the given key, leave the map unchanged when absent. -/
def modifyJob (m : Registry) (id : Str) (f : JobRecord → JobRecord) : Registry :=
  m.map (fun kv => if kv.1 = id then (kv.1, f kv.2) else kv)

def eraseJob (m : Registry) (id : Str) : Registry :=
  m.filter (fun kv => !decide (kv.1 = id))

/-- Model of `HashMap::insert` (replace-or-add). -/
def insertJob (m : Registry) (id : Str) (r : JobRecord) : Registry :=
  (id, r) :: eraseJob m id

/-- From src/tools/job_manager.rs `register_job_with_tags`, lines 104-108:
the summary derivation. -/
def mkSummary (command : Str) : Str :=
  if command.length > 100 then command.take 97 ++ "...".data else command

/-- The fresh `JobRecord` built by `register_job_with_tags`. -/
def mkJobRecord (job_id command shell cwd : Str) (pid : Option Nat)
    (tags : List Str) (now : Nat) : JobRecord :=
  { job_id := job_id
    command := command
    shell := shell
    cwd := cwd
    started_at := now
    finished_at := none
    status := .Running
    exit_code := none
    output := []
    full_output := []
    truncated := false
    pid := pid
    last_read_position := 0
    tags := tags
    summary := mkSummary command }

/-- From src/tools/job_manager.rs: `register_job_with_tags`. -/
def register_job_with_tags (m : Registry) (job_id command shell cwd : Str)
    (pid : Option Nat) (tags : List Str) (now : Nat) : Registry :=
  insertJob m job_id (mkJobRecord job_id command shell cwd pid tags now)

/-- Record-level body of `append_output` (the code inside
`if let Some(job) = jobs.get_mut(job_id)`).  `remaining.min(output.len())`
appears as the `min` under `take`; the Rust `if remaining > 0` guard only
avoids pushing an empty slice, which `take 0 = []` already models. -/
def appendOutputRec (output_limit : Nat) (job : JobRecord) (out : Str) : JobRecord :=
  if job.output.length + out.length ≤ output_limit then
    { job with full_output := job.full_output ++ out
               output := job.output ++ out }
  else
    { job with full_output := job.full_output ++ out
               output := job.output ++
                 out.take (min (output_limit - job.output.length) out.length)
               truncated := true }

/-- From src/tools/job_manager.rs: `append_output`. -/
def append_output (m : Registry) (job_id : Str) (out : Str) (output_limit : Nat) :
    Registry :=
  modifyJob m job_id (fun job => appendOutputRec output_limit job out)

/-- From src/tools/job_manager.rs: `complete_job`.  Note: the source sets
`finished_at`, `exit_code` and `status` unconditionally on any existing
job — there is no check that the current status is `Running`. -/
def complete_job (m : Registry) (job_id : Str) (exit_code : Option Int)
    (status : JobStatus) (now : Nat) : Registry :=
  modifyJob m job_id (fun job =>
    { job with finished_at := some now, exit_code := exit_code, status := status })

/-- From src/tools/job_manager.rs: `get_job`. -/
def get_job (m : Registry) (job_id : Str) : Option JobRecord :=
  lookupJob m job_id

/-- Record-level body of `get_incremental_output`: returns
`full_output[last_read_position..]` together with the running flag, and
the record with the cursor advanced to the end. -/
def getIncrementalRec (job : JobRecord) : (Str × Bool) × JobRecord :=
  ((job.full_output.drop job.last_read_position, isRunning job.status),
   { job with last_read_position := job.full_output.length })

/-- From src/tools/job_manager.rs: `get_incremental_output`; also returns
the updated registry (the Rust method mutates in place). -/
def get_incremental_output (m : Registry) (job_id : Str) :
    Option (Str × Bool) × Registry :=
  match lookupJob m job_id with
  | some job => (some (getIncrementalRec job).1,
                 modifyJob m job_id (fun j => (getIncrementalRec j).2))
  | none => (none, m)

/-- Record-level body of `reset_read_position`. -/
def resetReadRec (job : JobRecord) : JobRecord :=
  { job with last_read_position := 0 }

/-- From src/tools/job_manager.rs: `reset_read_position`. -/
def reset_read_position (m : Registry) (job_id : Str) : Registry :=
  modifyJob m job_id resetReadRec

/-- Record-level body of `add_tags`: push each tag not already present. -/
def addTagsRec (job : JobRecord) (tags : List Str) : JobRecord :=
  { job with tags := (tags.foldl
      (fun acc tag => if tag ∈ acc then acc else acc ++ [tag]) job.tags) }

/-- From src/tools/job_manager.rs: `add_tags`; the pair carries the
`Result` and the registry after the call. -/
def add_tags (m : Registry) (job_id : Str) (tags : List Str) :
    Except String Unit × Registry :=
  match lookupJob m job_id with
  | some _ => (.ok (), modifyJob m job_id (fun job => addTagsRec job tags))
  | none => (.error "Job not found", m)

/-- From src/tools/job_manager.rs: `get_output_range`. -/
def get_output_range (m : Registry) (job_id : Str) (offset limit : Nat) :
    Option (Str × Bool × Nat) :=
  match lookupJob m job_id with
  | some job =>
    let total_len := job.full_output.length
    let e := min (offset + limit) total_len
    let output_slice :=
      if offset < total_len then (job.full_output.drop offset).take (e - offset)
      else []
    some (output_slice, e < total_len, total_len)
  | none => none

/-- From src/tools/job_manager.rs: `cancel_job`, the `#[cfg(unix)]`
variant.  `killOk pid` models whether `kill(pid, SIGTERM)` returns `Ok`;
on a kill error the `?` operator returns before any field is written. -/
def cancel_job (m : Registry) (job_id : Str) (killOk : Nat → Bool) (now : Nat) :
    Except String Unit × Registry :=
  match lookupJob m job_id with
  | some job =>
    if isRunning job.status then
      match job.pid with
      | some pid =>
        if killOk pid then
          (.ok (), modifyJob m job_id (fun j =>
            { j with status := .Canceled, finished_at := some now }))
        else (.error "signal delivery failed", m)
      | none => (.error "Job not found or not running", m)
    else (.error "Job not found or not running", m)
  | none => (.error "Job not found or not running", m)

/-- From src/tools/job_manager.rs: `cancel_job`, the `#[cfg(not(unix))]`
variant (state-only transition). -/
def cancel_job_nonunix (m : Registry) (job_id : Str) (now : Nat) :
    Except String Unit × Registry :=
  match lookupJob m job_id with
  | some job =>
    if isRunning job.status then
      (.ok (), modifyJob m job_id (fun j =>
        { j with status := .Canceled, finished_at := some now }))
    else (.error "Job not found or not running", m)
  | none => (.error "Job not found or not running", m)

/-- From src/tools/job_manager.rs: `delete_job`. -/
def delete_job (m : Registry) (job_id : Str) : Except String Unit × Registry :=
  match lookupJob m job_id with
  | some _ => (.ok (), eraseJob m job_id)
  | none => (.error "Job not found", m)

/-! Executor model (src/tools/terminal_executor.rs). -/

/-- From src/tools/terminal_executor.rs: `sudo_looks_used`. -/
def sudo_looks_used (command : Str) : Bool :=
  containsSub command "sudo ".data || "sudo".data.isPrefixOf command

/-- Model of Rust `str::replace` (replace every occurrence, left to
right, non-overlapping).  Only called with a non-empty pattern. -/
def replaceAll (s pat rep : Str) : Str :=
  match s with
  | [] => []
  | c :: rest =>
    if pat ≠ [] ∧ pat.isPrefixOf (c :: rest) then
      rep ++ replaceAll ((c :: rest).drop pat.length) pat rep
    else
      c :: replaceAll rest pat rep
termination_by s.length
decreasing_by
  · simp only [List.length_drop, List.length_cons]
    rename_i h
    have hp : 1 ≤ pat.length := by
      cases hpat : pat with
      | nil => exact absurd hpat h.1
      | cons a l => simp
    omega
  · simp

/-- From src/tools/terminal_executor.rs: `wrap_sudo_command_for_server`.
The source guards `replacen("sudo ", "sudo -n ", 1)` by
`starts_with("sudo ")`, so the single replacement is at position 0. -/
def wrap_sudo_command_for_server (command : Str) : Str :=
  let out := command
  let out :=
    if "sudo ".data.isPrefixOf out then
      "sudo -n ".data ++ out.drop ("sudo ".data.length)
    else out
  ["&& sudo ".data, "|| sudo ".data, "; sudo ".data,
   "\n sudo ".data, "\n\tsudo ".data, "\tsudo ".data].foldl
    (fun acc pat =>
      if containsSub acc pat then
        replaceAll acc pat (replaceAll pat "sudo ".data "sudo -n ".data)
      else acc) out

/-- Arguments of the `execute` tool (`TerminalExecutionInput`);
`env_vars` is omitted (opaque to every claim). -/
structure TerminalExecutionInput where
  command : Str
  cwd : Str
  shell : Str
  output_limit : Nat
  timeout_secs : Option Nat
  async_threshold_secs : Nat
  force_sync : Bool
  custom_denylist : List Str
  tags : List Str
deriving DecidableEq

/-- From src/tools/terminal_executor.rs: `ExecutionResult`.
`duration_secs` (floating point) and `sudo_wrapper_applied` are omitted;
no claim concerns them. -/
structure ExecutionResult where
  job_id : Str
  command : Str
  working_directory : Str
  exit_code : Option Int
  success : Bool
  output : Str
  truncated : Bool
  timed_out : Bool
  switched_to_async : Bool
  denied : Bool
  denial_reason : Option Str
deriving DecidableEq

/-- The early-return value built at terminal_executor.rs lines 121-138
when the denylist matches. -/
def deniedExecutionResult (command : Str) (custom : List Str) : ExecutionResult :=
  { job_id := []
    command := command
    working_directory := []
    exit_code := none
    success := false
    output := []
    truncated := false
    timed_out := false
    switched_to_async := false
    denied := true
    denial_reason := some ("Command denied by security policy. Matched pattern: ".data
      ++ ((find_matched_pattern command custom).getD "unknown".data)) }

/-- Outcome of `execute_command` up to the point where a PTY would be
opened: the empty-command error, the denial early return, or
continuation into spawn/register with the (possibly rewritten) command
text. -/
inductive ExecOutcome where
  | errEmpty
  | deniedResult (r : ExecutionResult)
  | proceed (cmd : Str)
deriving DecidableEq

/-- Shared body of `execute_command` / `execute_command_inner` from the
empty-command check through the denylist check (terminal_executor.rs
lines 114-139 and 518-543). -/
def executePhase1Aux (cmd : Str) (custom : List Str) : ExecOutcome :=
  if cmd.isEmpty then .errEmpty
  else if is_denied cmd custom then .deniedResult (deniedExecutionResult cmd custom)
  else .proceed cmd

/-- From src/tools/terminal_executor.rs `execute_command` lines 91-139:
trim, then (when `ENHANCED_TERMINAL_SUDO_WRAP` is on and the command
looks like sudo) divert to `execute_command_inner` on the rewritten
command, else continue; `sudoWrap` is the `env_bool` result. -/
def execute_phase1 (sudoWrap : Bool) (input : TerminalExecutionInput) : ExecOutcome :=
  let command := trimStr input.command
  if sudoWrap && sudo_looks_used command then
    executePhase1Aux (trimStr (wrap_sudo_command_for_server command)) input.custom_denylist
  else
    executePhase1Aux command input.custom_denylist

/-- Effects performed between the denylist check and the scheduler loop
(terminal_executor.rs lines 152-191): PTY open, child spawn, job
registration.  On the two early-return outcomes none of them happen. -/
structure ExecEffects where
  ptyOpened : Bool
  childSpawned : Bool
  jobRegistered : Bool
deriving DecidableEq

/-- Registry and effects after phase 1: only the `proceed` branch opens
a PTY, spawns, and registers the job (cwd canonicalization, a filesystem
call, is modelled as the identity). -/
def execute_register (outcome : ExecOutcome) (m : Registry)
    (input : TerminalExecutionInput) (newId : Str) (pid : Option Nat) (now : Nat) :
    Registry × ExecEffects :=
  match outcome with
  | .proceed cmd =>
    (register_job_with_tags m newId cmd input.shell input.cwd pid input.tags now,
     ⟨true, true, true⟩)
  | _ => (m, ⟨false, false, false⟩)

/-- From src/tools/terminal_executor.rs: the `ReadMsg` channel messages. -/
inductive ReadMsg where
  | Data (bytes : Str)
  | Eof
  | Error
deriving DecidableEq

/-- One observation per iteration of the foreground loop: a channel
message (`Ok(Some(m))`), channel disconnect (`Ok(None)`), or the 100 ms
poll timeout (`Err(_)`, which continues the loop). -/
inductive LoopObs where
  | msg (m : ReadMsg)
  | closed
  | pollTimeout
deriving DecidableEq

structure FgState where
  output : Str
  truncated : Bool
  reg : Registry
deriving DecidableEq

structure FgResult where
  final : FgState
  timed_out : Bool
  switched_to_async : Bool
  killed : Bool
deriving DecidableEq

/-- `Duration::from_secs` relative to `Nat` nanosecond instants. -/
def secsToNanos (s : Nat) : Nat := s * 1000000000

/-- The `if let Some(timeout_duration) = timeout { elapsed > timeout_duration }`
check at terminal_executor.rs lines 266-273.  Note that
`timeout = input.timeout_secs.map(Duration::from_secs)` maps `Some(0)`
to `Some(0s)`, which this check does NOT skip. -/
def timeoutExceeded (timeout : Option Nat) (elapsed : Nat) : Bool :=
  match timeout with
  | some d => d < elapsed
  | none => false

/-- From src/tools/terminal_executor.rs lines 251-322: the foreground
scheduler loop.  Each list element is one iteration's observation
(`start_time.elapsed()` in nanoseconds, then the channel event); `none`
when the supplied observations run out before the loop breaks (the real
loop would keep polling). -/
def fgLoop (force_sync : Bool) (async_threshold : Nat) (timeout : Option Nat)
    (output_limit : Nat) (job_id : Str) :
    List (Nat × LoopObs) → FgState → Option FgResult
  | [], _ => none
  | (elapsed, obs) :: rest, st =>
    if !force_sync && async_threshold < elapsed then
      some ⟨st, false, true, false⟩
    else if timeoutExceeded timeout elapsed then
      some ⟨st, true, false, true⟩
    else
      match obs with
      | .msg (.Data data) =>
        let st' : FgState :=
          { output :=
              if st.output.length + data.length ≤ output_limit then
                st.output ++ data
              else
                st.output ++ data.take (output_limit - st.output.length)
            truncated :=
              st.truncated || !(st.output.length + data.length ≤ output_limit : Bool)
            reg := append_output st.reg job_id data output_limit }
        fgLoop force_sync async_threshold timeout output_limit job_id rest st'
      | .msg .Eof => some ⟨st, false, false, false⟩
      | .msg .Error => some ⟨st, false, false, false⟩
      | .closed => some ⟨st, false, false, false⟩
      | .pollTimeout => fgLoop force_sync async_threshold timeout output_limit job_id rest st

/-- From src/tools/terminal_executor.rs lines 433-439: the status chosen
on the synchronous completion path. -/
def finalizeStatus (timed_out : Bool) (exit_code : Option Int) : JobStatus :=
  if timed_out then .TimedOut
  else if exit_code = some 0 then .Completed
  else .Failed

/-- A concrete running job used by witnesses and counterexamples. -/
def testJob : JobRecord :=
  mkJobRecord "job-1".data "echo hi".data "bash".data ".".data (some 42) [] 0

/-- A concrete job already in the terminal state Canceled. -/
def canceledJob : JobRecord :=
  { testJob with status := .Canceled, finished_at := some 3 }

/-- Bounded-output invariant of a job record relative to the per-job
`output_limit`.  The last conjunct (a truncated preview is exactly full)
is the strengthening that makes the invariant inductive. -/
def OutputInv (limit : Nat) (j : JobRecord) : Prop :=
  j.output <+: j.full_output
  ∧ j.output.length ≤ limit
  ∧ (j.truncated = true ↔ j.output.length < j.full_output.length)
  ∧ (j.truncated = true → j.output.length = limit)

/-- Modelled from the spec sentence "summary: first 100 characters of
command with ellipsis marker if longer" — for comparison against
`mkSummary`, which is translated from the source. -/
def summarySpec (command : Str) : Str :=
  if command.length > 100 then command.take 100 ++ "...".data else command

/-- A concrete execute request for a denylisted command. -/
def denyInput : TerminalExecutionInput :=
  { command := "rm -rf /".data
    cwd := ".".data
    shell := "bash".data
    output_limit := 16384
    timeout_secs := none
    async_threshold_secs := 50
    force_sync := false
    custom_denylist := []
    tags := [] }

/-- A concrete execute request whose command matches a custom denylist
pattern that the sudo-wrap rewrite breaks. -/
def escapeInput : TerminalExecutionInput :=
  { command := "sudo rm x".data
    cwd := ".".data
    shell := "bash".data
    output_limit := 16384
    timeout_secs := none
    async_threshold_secs := 50
    force_sync := false
    custom_denylist := ["sudo rm".data]
    tags := [] }

/-! Helper lemmas. -/

theorem containsSub_iff (hay pat : Str) : containsSub hay pat = true ↔ pat <:+: hay := by
  simp [containsSub]

theorem isRunning_iff (s : JobStatus) : isRunning s = true ↔ s = .Running := by
  cases s <;> simp [isRunning]

theorem lookupJob_insertJob_self (m : Registry) (id : Str) (r : JobRecord) :
    lookupJob (insertJob m id r) id = some r := by
  simp [insertJob, lookupJob]

theorem modifyJob_lookup_none (m : Registry) (id : Str) (f : JobRecord → JobRecord)
    (h : lookupJob m id = none) : modifyJob m id f = m := by
  induction m with
  | nil => rfl
  | cons kv rest ih =>
    obtain ⟨k, v⟩ := kv
    simp only [lookupJob] at h
    by_cases hk : k = id
    · rw [if_pos hk] at h
      exact absurd h (by simp)
    · rw [if_neg hk] at h
      simp only [modifyJob, List.map_cons, if_neg hk]
      have := ih h
      simp only [modifyJob] at this
      rw [this]

theorem find_matched_pattern_isSome (cmd : Str) (extra : List Str) :
    (find_matched_pattern cmd extra).isSome = is_denied cmd extra := by
  simp only [find_matched_pattern, is_denied]
  cases hd : DEFAULT_DENYLIST.find? (fun p => containsSub (toLowerStr cmd) (toLowerStr p)) with
  | some p =>
    have hp : containsSub (toLowerStr cmd) (toLowerStr p) = true := by
      simpa using List.find?_some hd
    have hany : DEFAULT_DENYLIST.any
        (fun p => containsSub (toLowerStr cmd) (toLowerStr p)) = true :=
      List.any_eq_true.mpr ⟨p, List.mem_of_find?_eq_some hd, hp⟩
    rw [hany]
    rfl
  | none =>
    have hany : DEFAULT_DENYLIST.any
        (fun p => containsSub (toLowerStr cmd) (toLowerStr p)) = false := by
      rw [List.any_eq_false]
      intro q hq
      simpa using List.find?_eq_none.mp hd q hq
    rw [hany, Bool.false_or]
    show (extra.find? (fun p =>
        !p.isEmpty && containsSub (toLowerStr cmd) (toLowerStr p))).isSome
      = extra.any (fun p => !p.isEmpty && containsSub (toLowerStr cmd) (toLowerStr p))
    cases ha : extra.find? (fun p =>
        !p.isEmpty && containsSub (toLowerStr cmd) (toLowerStr p)) with
    | some q =>
      have hq : (!q.isEmpty && containsSub (toLowerStr cmd) (toLowerStr q)) = true := by
        simpa using List.find?_some ha
      have : extra.any (fun p =>
          !p.isEmpty && containsSub (toLowerStr cmd) (toLowerStr p)) = true :=
        List.any_eq_true.mpr ⟨q, List.mem_of_find?_eq_some ha, hq⟩
      rw [this]
      rfl
    | none =>
      have : extra.any (fun p =>
          !p.isEmpty && containsSub (toLowerStr cmd) (toLowerStr p)) = false := by
        rw [List.any_eq_false]
        intro q hq
        simpa using List.find?_eq_none.mp ha q hq
      rw [this]
      rfl

theorem is_denied_nil (custom : List Str) : is_denied [] custom = false := by
  simp only [is_denied]
  have hdef : DEFAULT_DENYLIST.any
      (fun p => containsSub (toLowerStr []) (toLowerStr p)) = false := by decide
  have hcus : custom.any
      (fun p => !p.isEmpty && containsSub (toLowerStr []) (toLowerStr p)) = false := by
    rw [List.any_eq_false]
    intro p _
    simp only [Bool.and_eq_true, Bool.not_eq_true', List.isEmpty_eq_false,
      containsSub, decide_eq_true_eq, not_and]
    intro hne hinf
    have hp : toLowerStr p = [] := List.infix_nil.mp hinf
    exact hne ((List.map_eq_nil_iff).mp hp)
  rw [hdef, hcus]
  rfl

/-! Claim theorems. -/

/-- Claim C6: `is_denied` holds exactly when the lowercased command
contains, as a substring, the lowercasing of some default pattern or of
some non-empty custom pattern, and `find_matched_pattern` returns a
pattern exactly when `is_denied` holds. -/
theorem is_denied_characterization (cmd : Str) (extra : List Str) :
    (is_denied cmd extra = true ↔
      ∃ p, (p ∈ DEFAULT_DENYLIST ∨ (p ∈ extra ∧ p ≠ [])) ∧
        toLowerStr p <:+: toLowerStr cmd)
    ∧ ((find_matched_pattern cmd extra).isSome = true ↔ is_denied cmd extra = true) := by
  constructor
  · simp only [is_denied, Bool.or_eq_true, List.any_eq_true, Bool.and_eq_true,
      Bool.not_eq_true', List.isEmpty_eq_false, containsSub, decide_eq_true_eq]
    constructor
    · rintro (⟨p, hp, hinf⟩ | ⟨p, hp, hne, hinf⟩)
      · exact ⟨p, Or.inl hp, hinf⟩
      · exact ⟨p, Or.inr ⟨hp, hne⟩, hinf⟩
    · rintro ⟨p, hp | ⟨hp, hne⟩, hinf⟩
      · exact Or.inl ⟨p, hp, hinf⟩
      · exact Or.inr ⟨p, hp, hne, hinf⟩
  · rw [find_matched_pattern_isSome]

/-- Claim C1 (code bug): `complete_job` performs no check that the job
is still Running — applied to a job already Canceled it overwrites
`status`, `exit_code` and `finished_at`, so a late reader EOF can flip
Canceled to Completed, contrary to the registry's documented
at-most-one-finalization policy. -/
theorem complete_job_overwrites_canceled :
    canceledJob.status = JobStatus.Canceled
    ∧ complete_job [("job-1".data, canceledJob)] "job-1".data (some 0) .Completed 7
        = [("job-1".data,
            { canceledJob with
                status := .Completed
                exit_code := some 0
                finished_at := some 7 })] := by
  exact ⟨rfl, rfl⟩

/-- Claim C9 counterexample: for a 101-character command the stored
summary is the first 97 characters plus "...", not the first 100
characters plus an ellipsis as the spec sentence states. -/
theorem summary_truncation_counterexample :
    mkSummary (List.replicate 101 'a') = List.replicate 97 'a' ++ "...".data
    ∧ mkSummary (List.replicate 101 'a') ≠ summarySpec (List.replicate 101 'a') := by
  constructor
  · decide
  · decide

/-- Claim C9 (amended): a registered job's summary equals the command
when the command is at most 100 characters long; otherwise it is the
first 97 characters followed by "...", 100 characters in total. -/
theorem summary_of_registered_job (m : Registry) (id command shell cwd : Str)
    (pid : Option Nat) (tags : List Str) (now : Nat) (r : JobRecord)
    (h : lookupJob (register_job_with_tags m id command shell cwd pid tags now) id
      = some r) :
    (command.length ≤ 100 → r.summary = command)
    ∧ (100 < command.length →
        r.summary = command.take 97 ++ "...".data ∧ r.summary.length = 100) := by
  rw [register_job_with_tags, lookupJob_insertJob_self] at h
  have hr : r = mkJobRecord id command shell cwd pid tags now := by
    injection h with h
    exact h.symm
  subst hr
  simp only [mkJobRecord, mkSummary]
  constructor
  · intro hle
    rw [if_neg (by omega)]
  · intro hgt
    rw [if_pos (by omega)]
    refine ⟨rfl, ?_⟩
    simp only [List.length_append, List.length_take]
    have : min 97 command.length = 97 := Nat.min_eq_left (by omega)
    rw [this]
    rfl

theorem summary_of_registered_job_witness :
    (100 < (List.replicate 101 'a').length)
    ∧ (mkJobRecord "job-1".data (List.replicate 101 'a') "bash".data ".".data
        none [] 0).summary = (List.replicate 101 'a').take 97 ++ "...".data := by
  refine ⟨by decide, ?_⟩
  exact ((summary_of_registered_job [] "job-1".data (List.replicate 101 'a')
    "bash".data ".".data none [] 0 _ rfl).2 (by decide)).1

/-- Claim C8 counterexample: registering a job whose tag list contains
"build" twice stores the duplicate verbatim — registration performs no
de-duplication. -/
theorem register_duplicate_tags :
    lookupJob (register_job_with_tags [] "job-1".data "make".data "bash".data
        ".".data none ["build".data, "build".data] 0) "job-1".data
      = some (mkJobRecord "job-1".data "make".data "bash".data ".".data none
        ["build".data, "build".data] 0)
    ∧ (mkJobRecord "job-1".data "make".data "bash".data ".".data none
        ["build".data, "build".data] 0).tags = ["build".data, "build".data]
    ∧ ¬ List.Nodup ["build".data, "build".data] := by
  refine ⟨rfl, rfl, by decide⟩

theorem tagsFold_spec (tags : List Str) : ∀ acc : List Str,
    acc <+: tags.foldl (fun acc tag => if tag ∈ acc then acc else acc ++ [tag]) acc
    ∧ (∀ t, t ∈ tags.foldl (fun acc tag => if tag ∈ acc then acc else acc ++ [tag]) acc
        ↔ t ∈ acc ∨ t ∈ tags)
    ∧ (acc.Nodup →
        (tags.foldl (fun acc tag => if tag ∈ acc then acc else acc ++ [tag]) acc).Nodup) := by
  induction tags with
  | nil =>
    intro acc
    exact ⟨List.prefix_refl _, fun t => by simp, fun h => h⟩
  | cons hd tl ih =>
    intro acc
    simp only [List.foldl_cons]
    by_cases hmem : hd ∈ acc
    · rw [if_pos hmem]
      obtain ⟨h1, h2, h3⟩ := ih acc
      refine ⟨h1, fun t => ?_, h3⟩
      rw [h2 t]
      constructor
      · rintro (h | h)
        · exact Or.inl h
        · exact Or.inr (List.mem_cons_of_mem _ h)
      · rintro (h | h)
        · exact Or.inl h
        · rcases List.mem_cons.mp h with rfl | h
          · exact Or.inl hmem
          · exact Or.inr h
    · rw [if_neg hmem]
      obtain ⟨h1, h2, h3⟩ := ih (acc ++ [hd])
      refine ⟨(List.prefix_append acc [hd]).trans h1, fun t => ?_, fun hnd => ?_⟩
      · rw [h2 t]
        simp only [List.mem_append, List.mem_singleton, List.mem_cons]
        tauto
      · refine h3 ?_
        rw [List.nodup_append]
        refine ⟨hnd, List.nodup_singleton _, ?_⟩
        intro a ha hb
        rw [List.mem_singleton] at hb
        subst hb
        exact hmem ha

/-- Claim C8 (amended): registration stores the supplied tags verbatim
(no de-duplication happens on insertion); `add_tags` has union
semantics: it keeps the existing tags as a prefix of the result, the
result contains a tag iff it was already present or supplied, and a
duplicate-free tag sequence stays duplicate-free. -/
theorem add_tags_union_spec (j : JobRecord) (tags : List Str) (m : Registry)
    (id command shell cwd : Str) (pid : Option Nat) (now : Nat) :
    (∀ r, lookupJob (register_job_with_tags m id command shell cwd pid tags now) id
        = some r → r.tags = tags)
    ∧ j.tags <+: (addTagsRec j tags).tags
    ∧ (∀ t, t ∈ (addTagsRec j tags).tags ↔ t ∈ j.tags ∨ t ∈ tags)
    ∧ (j.tags.Nodup → (addTagsRec j tags).tags.Nodup) := by
  obtain ⟨h1, h2, h3⟩ := tagsFold_spec tags j.tags
  refine ⟨?_, h1, h2, h3⟩
  intro r hr
  rw [register_job_with_tags, lookupJob_insertJob_self] at hr
  injection hr with hr
  rw [← hr]
  rfl

theorem add_tags_union_spec_witness :
    testJob.tags.Nodup
    ∧ (mkJobRecord "job-1".data "make".data "bash".data ".".data none
        ["ci".data] 0).tags = ["ci".data]
    ∧ (addTagsRec testJob ["ci".data]).tags.Nodup
    ∧ ("ci".data ∈ (addTagsRec testJob ["ci".data]).tags ↔
        "ci".data ∈ testJob.tags ∨ "ci".data ∈ [("ci".data : Str)]) := by
  have h := add_tags_union_spec testJob ["ci".data] [] "job-1".data "make".data
    "bash".data ".".data none 0
  exact ⟨by decide, h.1 _ (lookupJob_insertJob_self _ _ _), h.2.2.2 (by decide),
    h.2.2.1 "ci".data⟩

/-- Claim C10: for a job id absent from the registry map the getters
return None, the silent mutators leave the map untouched, and the
fallible operations return an error — in every case the registry is
completely unchanged. -/
theorem missing_job_id_noop (m : Registry) (id : Str) (out : Str) (limit : Nat)
    (ec : Option Int) (st : JobStatus) (now off lim : Nat) (tags : List Str)
    (killOk : Nat → Bool) (h : lookupJob m id = none) :
    get_job m id = none
    ∧ get_incremental_output m id = (none, m)
    ∧ get_output_range m id off lim = none
    ∧ append_output m id out limit = m
    ∧ complete_job m id ec st now = m
    ∧ reset_read_position m id = m
    ∧ add_tags m id tags = (Except.error "Job not found", m)
    ∧ cancel_job m id killOk now = (Except.error "Job not found or not running", m)
    ∧ cancel_job_nonunix m id now = (Except.error "Job not found or not running", m)
    ∧ delete_job m id = (Except.error "Job not found", m) := by
  refine ⟨h, ?_, ?_, ?_, ?_, ?_, ?_, ?_, ?_, ?_⟩
  · simp [get_incremental_output, h]
  · simp [get_output_range, h]
  · exact modifyJob_lookup_none m id _ h
  · exact modifyJob_lookup_none m id _ h
  · exact modifyJob_lookup_none m id _ h
  · simp [add_tags, h]
  · simp [cancel_job, h]
  · simp [cancel_job_nonunix, h]
  · simp [delete_job, h]

theorem missing_job_id_noop_witness :
    lookupJob [("job-2".data, testJob)] "job-1".data = none
    ∧ get_job [("job-2".data, testJob)] "job-1".data = none
    ∧ append_output [("job-2".data, testJob)] "job-1".data "x".data 4
        = [("job-2".data, testJob)]
    ∧ cancel_job [("job-2".data, testJob)] "job-1".data (fun _ => true) 5
        = (Except.error "Job not found or not running", [("job-2".data, testJob)]) := by
  have h := missing_job_id_noop [("job-2".data, testJob)] "job-1".data "x".data 4
    none .Completed 5 0 0 [] (fun _ => true) rfl
  exact ⟨rfl, h.1, h.2.2.2.1, h.2.2.2.2.2.2.2.1⟩

/-! Projection equations for `appendOutputRec`. -/

theorem appendOutputRec_full_output (limit : Nat) (j : JobRecord) (out : Str) :
    (appendOutputRec limit j out).full_output = j.full_output ++ out := by
  unfold appendOutputRec
  split <;> rfl

theorem appendOutputRec_cursor (limit : Nat) (j : JobRecord) (out : Str) :
    (appendOutputRec limit j out).last_read_position = j.last_read_position := by
  unfold appendOutputRec
  split <;> rfl

theorem appendOutputRec_status (limit : Nat) (j : JobRecord) (out : Str) :
    (appendOutputRec limit j out).status = j.status := by
  unfold appendOutputRec
  split <;> rfl

theorem appendOutputRec_output_le (limit : Nat) (j : JobRecord) (out : Str)
    (hc : j.output.length + out.length ≤ limit) :
    (appendOutputRec limit j out).output = j.output ++ out := by
  unfold appendOutputRec
  rw [if_pos hc]

theorem appendOutputRec_truncated_le (limit : Nat) (j : JobRecord) (out : Str)
    (hc : j.output.length + out.length ≤ limit) :
    (appendOutputRec limit j out).truncated = j.truncated := by
  unfold appendOutputRec
  rw [if_pos hc]

theorem appendOutputRec_output_gt (limit : Nat) (j : JobRecord) (out : Str)
    (hc : ¬ j.output.length + out.length ≤ limit) :
    (appendOutputRec limit j out).output
      = j.output ++ out.take (min (limit - j.output.length) out.length) := by
  unfold appendOutputRec
  rw [if_neg hc]

theorem appendOutputRec_truncated_gt (limit : Nat) (j : JobRecord) (out : Str)
    (hc : ¬ j.output.length + out.length ≤ limit) :
    (appendOutputRec limit j out).truncated = true := by
  unfold appendOutputRec
  rw [if_neg hc]

theorem appendOutputRec_inv (limit : Nat) (j : JobRecord) (out : Str)
    (h : OutputInv limit j) : OutputInv limit (appendOutputRec limit j out) := by
  obtain ⟨hpre, hle, hiff, hlim⟩ := h
  by_cases hc : j.output.length + out.length ≤ limit
  · refine ⟨?_, ?_, ?_, ?_⟩
    · rw [appendOutputRec_output_le limit j out hc, appendOutputRec_full_output]
      by_cases ht : j.truncated = true
      · have hout : out = [] := List.eq_nil_of_length_eq_zero (by
          have := hlim ht
          omega)
        subst hout
        simpa using hpre
      · have htf : j.truncated = false := by simpa using ht
        have hnlt : ¬ j.output.length < j.full_output.length := by
          intro hlt
          have h2 := hiff.mpr hlt
          rw [htf] at h2
          cases h2
        have heq : j.output = j.full_output :=
          hpre.eq_of_length (Nat.le_antisymm hpre.length_le (by omega))
        rw [heq]
    · rw [appendOutputRec_output_le limit j out hc, List.length_append]
      exact hc
    · rw [appendOutputRec_truncated_le limit j out hc,
        appendOutputRec_output_le limit j out hc, appendOutputRec_full_output,
        List.length_append, List.length_append]
      constructor
      · intro ht
        have := hiff.mp ht
        omega
      · intro hlt
        exact hiff.mpr (by omega)
    · rw [appendOutputRec_truncated_le limit j out hc,
        appendOutputRec_output_le limit j out hc, List.length_append]
      intro ht
      have := hlim ht
      omega
  · have hmin : min (limit - j.output.length) out.length = limit - j.output.length :=
      Nat.min_eq_left (by omega)
    have hout' : (appendOutputRec limit j out).output.length = limit := by
      rw [appendOutputRec_output_gt limit j out hc, List.length_append, hmin,
        List.length_take, Nat.min_eq_left (by omega : limit - j.output.length ≤ out.length)]
      omega
    have hfull' : (appendOutputRec limit j out).full_output.length
        = j.full_output.length + out.length := by
      rw [appendOutputRec_full_output, List.length_append]
    refine ⟨?_, ?_, ?_, ?_⟩
    · rw [appendOutputRec_output_gt limit j out hc, appendOutputRec_full_output]
      by_cases ht : j.truncated = true
      · have hl := hlim ht
        have hz : limit - j.output.length = 0 := by omega
        rw [hz]
        simp only [Nat.zero_min, List.take_zero, List.append_nil]
        exact hpre.trans (List.prefix_append _ _)
      · have htf : j.truncated = false := by simpa using ht
        have hnlt : ¬ j.output.length < j.full_output.length := by
          intro hlt
          have h2 := hiff.mpr hlt
          rw [htf] at h2
          cases h2
        have heq : j.output = j.full_output :=
          hpre.eq_of_length (Nat.le_antisymm hpre.length_le (by omega))
        rw [← heq]
        exact (List.prefix_append_right_inj _).mpr (List.take_prefix _ _)
    · exact Nat.le_of_eq hout'
    · rw [appendOutputRec_truncated_gt limit j out hc, hout', hfull']
      have hple := hpre.length_le
      constructor
      · intro _
        omega
      · intro _
        rfl
    · intro _
      exact hout'

theorem foldl_appendOutputRec_inv (limit : Nat) (outs : List Str) :
    ∀ j : JobRecord, OutputInv limit j →
      OutputInv limit (outs.foldl (appendOutputRec limit) j) := by
  induction outs with
  | nil => exact fun j h => h
  | cons o os ih => exact fun j h => ih _ (appendOutputRec_inv limit j o h)

theorem appendOutputRec_zero_output (j : JobRecord) (out : Str)
    (h : j.output = []) : (appendOutputRec 0 j out).output = [] := by
  by_cases hc : j.output.length + out.length ≤ 0
  · have hout : out = [] := List.eq_nil_of_length_eq_zero (by
      rw [h] at hc
      simpa using hc)
    rw [appendOutputRec_output_le 0 j out hc, h, hout]
    rfl
  · rw [appendOutputRec_output_gt 0 j out hc, h]
    simp

theorem appendOutputRec_zero_truncated (j : JobRecord) (out : Str)
    (h : j.output = []) :
    (appendOutputRec 0 j out).truncated = (j.truncated || !out.isEmpty) := by
  by_cases hc : j.output.length + out.length ≤ 0
  · have hout : out = [] := List.eq_nil_of_length_eq_zero (by
      rw [h] at hc
      simpa using hc)
    rw [appendOutputRec_truncated_le 0 j out hc, hout]
    simp
  · rw [appendOutputRec_truncated_gt 0 j out hc]
    have hne : out ≠ [] := by
      intro he
      rw [he, h] at hc
      exact hc (by simp)
    have he : out.isEmpty = false := List.isEmpty_eq_false.mpr hne
    rw [he]
    simp

theorem foldl_appendOutputRec_zero (outs : List Str) :
    ∀ j : JobRecord, j.output = [] →
      (outs.foldl (appendOutputRec 0) j).output = []
      ∧ (outs.foldl (appendOutputRec 0) j).truncated
        = (j.truncated || outs.any (fun o => !o.isEmpty)) := by
  induction outs with
  | nil =>
    intro j h
    exact ⟨h, by simp⟩
  | cons o os ih =>
    intro j h
    obtain ⟨h1, h2⟩ := ih (appendOutputRec 0 j o) (appendOutputRec_zero_output j o h)
    refine ⟨h1, ?_⟩
    calc (List.foldl (appendOutputRec 0) (appendOutputRec 0 j o) os).truncated
        = ((appendOutputRec 0 j o).truncated || os.any (fun o => !o.isEmpty)) := h2
      _ = ((j.truncated || !o.isEmpty) || os.any (fun o => !o.isEmpty)) := by
          rw [appendOutputRec_zero_truncated j o h]
      _ = (j.truncated || ((o :: os).any (fun o => !o.isEmpty))) := by
          rw [List.any_cons, Bool.or_assoc]

/-- Claim C3: starting from a freshly registered record, any sequence of
`append_output` calls with a fixed limit keeps the preview a prefix of
the full capture, its length within the limit, and `truncated` true
exactly when the full capture is strictly longer; with limit 0 the
preview stays empty and `truncated` holds exactly when some appended
chunk was non-empty. -/
theorem append_output_invariants (limit : Nat) (j : JobRecord) (outs : List Str)
    (h0 : j.output = []) (h1 : j.full_output = []) (h2 : j.truncated = false) :
    (outs.foldl (appendOutputRec limit) j).output
        <+: (outs.foldl (appendOutputRec limit) j).full_output
    ∧ (outs.foldl (appendOutputRec limit) j).output.length ≤ limit
    ∧ ((outs.foldl (appendOutputRec limit) j).truncated = true ↔
        (outs.foldl (appendOutputRec limit) j).output.length
          < (outs.foldl (appendOutputRec limit) j).full_output.length)
    ∧ (limit = 0 →
        (outs.foldl (appendOutputRec 0) j).output = []
        ∧ (outs.foldl (appendOutputRec 0) j).truncated
          = outs.any (fun o => !o.isEmpty)) := by
  have hinv : OutputInv limit j := by
    refine ⟨?_, ?_, ?_, ?_⟩
    · rw [h0]
      exact List.nil_prefix
    · rw [h0]
      simp
    · rw [h0, h1, h2]
      simp
    · rw [h2]
      intro hf
      cases hf
  obtain ⟨p1, p2, p3, _⟩ := foldl_appendOutputRec_inv limit outs j hinv
  refine ⟨p1, p2, p3, fun _ => ?_⟩
  obtain ⟨z1, z2⟩ := foldl_appendOutputRec_zero outs j h0
  refine ⟨z1, ?_⟩
  rw [z2, h2, Bool.false_or]

theorem append_output_invariants_witness :
    (testJob.output = [] ∧ testJob.full_output = [] ∧ testJob.truncated = false)
    ∧ ((["ab".data, "cde".data].foldl (appendOutputRec 3) testJob).output
        <+: (["ab".data, "cde".data].foldl (appendOutputRec 3) testJob).full_output
      ∧ (["ab".data, "cde".data].foldl (appendOutputRec 3) testJob).output.length ≤ 3
      ∧ ((["ab".data, "cde".data].foldl (appendOutputRec 3) testJob).truncated = true ↔
          (["ab".data, "cde".data].foldl (appendOutputRec 3) testJob).output.length
            < (["ab".data, "cde".data].foldl (appendOutputRec 3) testJob).full_output.length)
      ∧ ((3 : Nat) = 0 →
          (["ab".data, "cde".data].foldl (appendOutputRec 0) testJob).output = []
          ∧ (["ab".data, "cde".data].foldl (appendOutputRec 0) testJob).truncated
            = ["ab".data, "cde".data].any (fun o => !o.isEmpty))) := by
  exact ⟨⟨rfl, rfl, rfl⟩,
    append_output_invariants 3 testJob ["ab".data, "cde".data] rfl rfl rfl⟩

/-- Claim C4: an incremental read returns exactly the suffix of
`full_output` past the cursor and moves the cursor to the end; the
cursor stays within the output length under append, read, and reset;
the part before the cursor plus the read recomposes `full_output`; and
after `appendOutput X` a read returns `X`, after a further
`appendOutput Y` the next read returns exactly `Y`. -/
theorem incremental_output_cursor (j : JobRecord) (X Y : Str) (limit : Nat)
    (h : j.last_read_position ≤ j.full_output.length) :
    (getIncrementalRec j).1.1 = j.full_output.drop j.last_read_position
    ∧ j.full_output.take j.last_read_position ++ (getIncrementalRec j).1.1
        = j.full_output
    ∧ (getIncrementalRec j).2.last_read_position
        = (getIncrementalRec j).2.full_output.length
    ∧ (appendOutputRec limit j X).last_read_position
        ≤ (appendOutputRec limit j X).full_output.length
    ∧ (getIncrementalRec j).2.last_read_position
        ≤ (getIncrementalRec j).2.full_output.length
    ∧ (resetReadRec j).last_read_position ≤ (resetReadRec j).full_output.length
    ∧ (j.last_read_position = j.full_output.length →
        (getIncrementalRec (appendOutputRec limit j X)).1.1 = X
        ∧ (getIncrementalRec (appendOutputRec limit
            (getIncrementalRec (appendOutputRec limit j X)).2 Y)).1.1 = Y) := by
  refine ⟨rfl, List.take_append_drop _ _, rfl, ?_, Nat.le_refl _, Nat.zero_le _, ?_⟩
  · rw [appendOutputRec_cursor, appendOutputRec_full_output, List.length_append]
    omega
  · intro hc
    constructor
    · show (appendOutputRec limit j X).full_output.drop
        (appendOutputRec limit j X).last_read_position = X
      rw [appendOutputRec_cursor, appendOutputRec_full_output, hc]
      exact List.drop_left _ _
    · show (appendOutputRec limit (getIncrementalRec (appendOutputRec limit j X)).2
          Y).full_output.drop
        (appendOutputRec limit (getIncrementalRec (appendOutputRec limit j X)).2
          Y).last_read_position = Y
      rw [appendOutputRec_cursor, appendOutputRec_full_output]
      show ((appendOutputRec limit j X).full_output ++ Y).drop
        ((appendOutputRec limit j X).full_output.length) = Y
      exact List.drop_left _ _

theorem incremental_output_cursor_witness :
    testJob.last_read_position ≤ testJob.full_output.length
    ∧ testJob.last_read_position = testJob.full_output.length
    ∧ (getIncrementalRec (appendOutputRec 5 testJob "ab".data)).1.1 = "ab".data := by
  refine ⟨by decide, by decide, ?_⟩
  exact ((incremental_output_cursor testJob "ab".data "c".data 5
    (by decide)).2.2.2.2.2.2 (by decide)).1

/-! Branch-evaluation equations for `cancel_job`. -/

theorem cancel_job_eq_none (m : Registry) (id : Str) (killOk : Nat → Bool)
    (now : Nat) (hl : lookupJob m id = none) :
    cancel_job m id killOk now
      = (Except.error "Job not found or not running", m) := by
  unfold cancel_job
  rw [hl]

theorem cancel_job_eq_ok (m : Registry) (id : Str) (killOk : Nat → Bool) (now : Nat)
    (j : JobRecord) (pid : Nat) (hl : lookupJob m id = some j)
    (hr : isRunning j.status = true) (hp : j.pid = some pid)
    (hk : killOk pid = true) :
    cancel_job m id killOk now = (.ok (), modifyJob m id (fun r =>
      { r with status := .Canceled, finished_at := some now })) := by
  unfold cancel_job
  rw [hl]
  simp [hr, hp, hk]

theorem cancel_job_eq_killfail (m : Registry) (id : Str) (killOk : Nat → Bool)
    (now : Nat) (j : JobRecord) (pid : Nat) (hl : lookupJob m id = some j)
    (hr : isRunning j.status = true) (hp : j.pid = some pid)
    (hk : killOk pid = false) :
    cancel_job m id killOk now = (Except.error "signal delivery failed", m) := by
  unfold cancel_job
  rw [hl]
  simp [hr, hp, hk]

theorem cancel_job_eq_nopid (m : Registry) (id : Str) (killOk : Nat → Bool)
    (now : Nat) (j : JobRecord) (hl : lookupJob m id = some j)
    (hr : isRunning j.status = true) (hp : j.pid = none) :
    cancel_job m id killOk now
      = (Except.error "Job not found or not running", m) := by
  unfold cancel_job
  rw [hl]
  simp [hr, hp]

theorem cancel_job_eq_notrunning (m : Registry) (id : Str) (killOk : Nat → Bool)
    (now : Nat) (j : JobRecord) (hl : lookupJob m id = some j)
    (hr : isRunning j.status = false) :
    cancel_job m id killOk now
      = (Except.error "Job not found or not running", m) := by
  unfold cancel_job
  rw [hl]
  simp [hr]

theorem cancel_job_nonunix_eq_ok (m : Registry) (id : Str) (now : Nat)
    (j : JobRecord) (hl : lookupJob m id = some j)
    (hr : isRunning j.status = true) :
    cancel_job_nonunix m id now = (.ok (), modifyJob m id (fun r =>
      { r with status := .Canceled, finished_at := some now })) := by
  unfold cancel_job_nonunix
  rw [hl]
  simp [hr]

theorem cancel_job_nonunix_eq_notrunning (m : Registry) (id : Str) (now : Nat)
    (j : JobRecord) (hl : lookupJob m id = some j)
    (hr : isRunning j.status = false) :
    cancel_job_nonunix m id now
      = (Except.error "Job not found or not running", m) := by
  unfold cancel_job_nonunix
  rw [hl]
  simp [hr]

/-- Claim C7: cancel succeeds exactly when the job exists, is Running,
and (in the unix variant) its pid was captured and signal delivery
succeeds; success sets status Canceled and finished_at to now; every
failure — job missing, not Running, pid absent, or signal failure —
leaves the registry unchanged.  The non-unix variant is the state-only
transition requiring only existence and Running. -/
theorem cancel_job_spec (m : Registry) (id : Str) (killOk : Nat → Bool) (now : Nat) :
    ((cancel_job m id killOk now).1.isOk = true ↔
      ∃ j p, lookupJob m id = some j ∧ j.status = .Running ∧ j.pid = some p
        ∧ killOk p = true)
    ∧ (∀ j p, lookupJob m id = some j → j.status = .Running → j.pid = some p →
        killOk p = true →
        cancel_job m id killOk now = (.ok (), modifyJob m id (fun r =>
          { r with status := .Canceled, finished_at := some now })))
    ∧ ((cancel_job m id killOk now).1.isOk = false →
        (cancel_job m id killOk now).2 = m)
    ∧ (∀ j, lookupJob m id = some j → j.status = .Running →
        cancel_job_nonunix m id now = (.ok (), modifyJob m id (fun r =>
          { r with status := .Canceled, finished_at := some now })))
    ∧ (∀ j, lookupJob m id = some j → ¬ j.status = .Running →
        cancel_job_nonunix m id now
          = (Except.error "Job not found or not running", m)) := by
  refine ⟨?_, ?_, ?_, ?_, ?_⟩
  · constructor
    · intro hOk
      cases hl : lookupJob m id with
      | none =>
        rw [cancel_job_eq_none m id killOk now hl] at hOk
        simp [Except.isOk, Except.toBool] at hOk
      | some j =>
        by_cases hr : isRunning j.status = true
        · cases hp : j.pid with
          | none =>
            rw [cancel_job_eq_nopid m id killOk now j hl hr hp] at hOk
            simp [Except.isOk, Except.toBool] at hOk
          | some pid =>
            by_cases hk : killOk pid = true
            · exact ⟨j, pid, rfl, (isRunning_iff _).mp hr, hp, hk⟩
            · rw [cancel_job_eq_killfail m id killOk now j pid hl hr hp
                (by simpa using hk)] at hOk
              simp [Except.isOk, Except.toBool] at hOk
        · rw [cancel_job_eq_notrunning m id killOk now j hl
            (by simpa using hr)] at hOk
          simp [Except.isOk, Except.toBool] at hOk
    · rintro ⟨j, p, hl, hs, hp, hk⟩
      rw [cancel_job_eq_ok m id killOk now j p hl ((isRunning_iff _).mpr hs) hp hk]
      rfl
  · intro j p hl hs hp hk
    exact cancel_job_eq_ok m id killOk now j p hl ((isRunning_iff _).mpr hs) hp hk
  · intro hFail
    cases hl : lookupJob m id with
    | none => rw [cancel_job_eq_none m id killOk now hl]
    | some j =>
      by_cases hr : isRunning j.status = true
      · cases hp : j.pid with
        | none => rw [cancel_job_eq_nopid m id killOk now j hl hr hp]
        | some pid =>
          by_cases hk : killOk pid = true
          · rw [cancel_job_eq_ok m id killOk now j pid hl hr hp hk] at hFail
            simp [Except.isOk, Except.toBool] at hFail
          · rw [cancel_job_eq_killfail m id killOk now j pid hl hr hp
              (by simpa using hk)]
      · rw [cancel_job_eq_notrunning m id killOk now j hl (by simpa using hr)]
  · intro j hl hs
    exact cancel_job_nonunix_eq_ok m id now j hl ((isRunning_iff _).mpr hs)
  · intro j hl hns
    have hrf : isRunning j.status = false := by
      have : ¬ isRunning j.status = true := fun hh => hns ((isRunning_iff _).mp hh)
      simpa using this
    exact cancel_job_nonunix_eq_notrunning m id now j hl hrf

theorem cancel_job_spec_witness :
    lookupJob [("job-1".data, testJob)] "job-1".data = some testJob
    ∧ testJob.status = .Running
    ∧ testJob.pid = some 42
    ∧ cancel_job [("job-1".data, testJob)] "job-1".data (fun _ => true) 5
        = (.ok (), modifyJob [("job-1".data, testJob)] "job-1".data (fun r =>
            { r with status := .Canceled, finished_at := some 5 })) := by
  refine ⟨rfl, rfl, rfl, ?_⟩
  exact (cancel_job_spec [("job-1".data, testJob)] "job-1".data
    (fun _ => true) 5).2.1 testJob 42 rfl rfl rfl rfl

/-- Claim C2 (code bug): `timeout_secs = Some(0)` maps to a zero
duration, and the foreground scheduler's elapsed-time check does fire on
it — on the first poll with any positive elapsed time the child is
killed and the job finalized as TimedOut — although the source's own
documentation of the field says "None/0 = no timeout". -/
theorem timeout_secs_zero_kills :
    fgLoop false (secsToNanos 50) (Option.map secsToNanos (some 0)) 16384
        "job-1".data [(1, .pollTimeout)] ⟨[], false, [("job-1".data, testJob)]⟩
      = some ⟨⟨[], false, [("job-1".data, testJob)]⟩, true, false, true⟩
    ∧ finalizeStatus true none = JobStatus.TimedOut
    ∧ lookupJob (complete_job [("job-1".data, testJob)] "job-1".data none
        (finalizeStatus true none) 2) "job-1".data
      = some { testJob with
          finished_at := some 2
          exit_code := none
          status := .TimedOut } := by
  refine ⟨rfl, rfl, rfl⟩

/-- Claim C5 counterexample: with the sudo-wrap feature enabled (its
default), the command "sudo rm x" matches the custom denylist pattern
"sudo rm", yet execute rewrites it to "sudo -n rm x" before the
denylist check, the rewritten text no longer matches, and the command
proceeds to PTY/spawn/registration. -/
theorem denied_command_escapes_wrap :
    is_denied (trimStr escapeInput.command) escapeInput.custom_denylist = true
    ∧ execute_phase1 true escapeInput = .proceed "sudo -n rm x".data
    ∧ (execute_register (execute_phase1 true escapeInput) [] escapeInput
        "job-1".data (some 7) 0).2 = ⟨true, true, true⟩ := by
  refine ⟨by decide, by decide, ?_⟩
  rw [(by decide : execute_phase1 true escapeInput = .proceed "sudo -n rm x".data)]
  rfl

/-- Claim C5 (amended): when the sudo-wrap rewrite is not in play (the
flag is off or the command does not invoke sudo), a command whose
trimmed text matches the denylist is refused: execute returns the early
denial result with denied=true naming the matched pattern, and no PTY is
opened, no child spawned, no job registered — the registry is unchanged. -/
theorem denied_command_no_spawn (sudoWrap : Bool) (input : TerminalExecutionInput)
    (m : Registry) (newId : Str) (pid : Option Nat) (now : Nat)
    (hden : is_denied (trimStr input.command) input.custom_denylist = true)
    (hwrap : sudoWrap = false ∨ sudo_looks_used (trimStr input.command) = false) :
    execute_phase1 sudoWrap input
      = .deniedResult (deniedExecutionResult (trimStr input.command)
          input.custom_denylist)
    ∧ (deniedExecutionResult (trimStr input.command) input.custom_denylist).denied
        = true
    ∧ (∃ p, find_matched_pattern (trimStr input.command) input.custom_denylist
          = some p
        ∧ (deniedExecutionResult (trimStr input.command)
            input.custom_denylist).denial_reason
          = some ("Command denied by security policy. Matched pattern: ".data ++ p))
    ∧ execute_register (execute_phase1 sudoWrap input) m input newId pid now
        = (m, ⟨false, false, false⟩) := by
  have hcond : (sudoWrap && sudo_looks_used (trimStr input.command)) = false := by
    rcases hwrap with h | h
    · rw [h]
      rfl
    · rw [h]
      simp
  have hne : (trimStr input.command).isEmpty = false := by
    rw [List.isEmpty_eq_false]
    intro he
    rw [he, is_denied_nil] at hden
    cases hden
  have hphase : execute_phase1 sudoWrap input
      = .deniedResult (deniedExecutionResult (trimStr input.command)
          input.custom_denylist) := by
    simp only [execute_phase1]
    rw [hcond, if_neg Bool.false_ne_true]
    simp only [executePhase1Aux]
    rw [hne, if_neg Bool.false_ne_true, hden, if_pos rfl]
  have hsome : (find_matched_pattern (trimStr input.command)
      input.custom_denylist).isSome = true := by
    rw [find_matched_pattern_isSome]
    exact hden
  obtain ⟨p, hp⟩ := Option.isSome_iff_exists.mp hsome
  refine ⟨hphase, rfl, ⟨p, hp, ?_⟩, ?_⟩
  · simp only [deniedExecutionResult]
    rw [hp]
    rfl
  · rw [hphase]
    rfl

theorem denied_command_no_spawn_witness :
    is_denied (trimStr denyInput.command) denyInput.custom_denylist = true
    ∧ (true = false ∨ sudo_looks_used (trimStr denyInput.command) = false)
    ∧ execute_phase1 true denyInput
      = .deniedResult (deniedExecutionResult (trimStr denyInput.command)
          denyInput.custom_denylist)
    ∧ execute_register (execute_phase1 true denyInput) [] denyInput
        "job-1".data none 0 = ([], ⟨false, false, false⟩) := by
  have h := denied_command_no_spawn true denyInput [] "job-1".data none 0
    (by decide) (Or.inr (by decide))
  exact ⟨by decide, Or.inr (by decide), h.1, h.2.2.2⟩

end EnhancedTerminal
